import Mathlib

/-!
Verification of the yahoo-earnings-calendar scraper
(src/yahoo_earnings_calendar/scraper.py) against its specification.

Shallow embedding conventions:
* JSON values are modelled by the inductive type Json below; numbers are
  modelled as integers (every number the claims touch is an integer).
* Python exceptions are modelled by the enumeration PyExc.  Python raises
  ValueError at two distinct sites with distinct messages; they are kept
  apart as PyExc.invalidRange (earnings_between, line 237) and
  PyExc.unparseable (_get_data_dict, line 59).  PyExc.collapsed models the
  catch-all Exception with message Invalid Symbol or Unavailable Earnings
  Date raised at lines 163/165/265.
* The network boundary (requests.get + page decoding) and the standard
  library functions json.loads and datetime.strptime/timestamp are external
  collaborators; they enter the model as explicit oracle parameters
  (a fetcher function, a jloads function, a strp function).
* Page text reaches _get_data_dict in two roles: the list of regex matches
  of the data-sveltekit-fetched script pattern (line 64-65), modelled as a
  list of candidate strings, and the newline-split line list used by the
  fallback (line 54), modelled as a list of lines.
-/

/-- JSON-like dynamic values as manipulated by the Python code.  Object
fields keep insertion order; keys are strings (JSON object keys always
are, and the claims only concern string column identifiers). -/
inductive Json where
  | null : Json
  | bool (b : Bool) : Json
  | num (n : Int) : Json
  | str (s : String) : Json
  | arr (xs : List Json) : Json
  | obj (kvs : List (String × Json)) : Json

/-- Python exception kinds raised or caught by the scraper. -/
inductive PyExc where
  | typeError
  | keyError
  | indexError
  | attributeError
  | unparseable
  | invalidRange
  | noUpcoming
  | collapsed
deriving DecidableEq, Repr

/-- Occurrence of pat as a contiguous run of s. -/
def hasSub (pat : List Char) : List Char → Bool
  | [] => pat.isEmpty
  | c :: rest => pat.isPrefixOf (c :: rest) || hasSub pat rest

/-- Substring test; models the Python expression pat in s for strings. -/
def strHas (s pat : String) : Bool :=
  hasSub pat.data s.data

/-- Test s.startswith(p); models Python str.startswith. -/
def pyStartsWith (s p : String) : Bool :=
  p.data.isPrefixOf s.data

/-- Code-point lexicographic comparison of character lists; models how
Python compares strings. -/
def lexLe : List Char → List Char → Bool
  | [], _ => true
  | _ :: _, [] => false
  | a :: as, b :: bs =>
    if a.toNat < b.toNat then true
    else if b.toNat < a.toNat then false
    else lexLe as bs

/-- String comparison s1 <= s2 as Python evaluates it. -/
def strLe (s1 s2 : String) : Bool :=
  lexLe s1.data s2.data

/-- Insertion of an element into a sorted list, before the first element
it does not come after. -/
def insertLe (le : α → α → Bool) (a : α) : List α → List α
  | [] => [a]
  | b :: rest => if le a b then a :: b :: rest else b :: insertLe le a rest

/-- Comparison sort; models Python sorted(xs, key) once the key has been
paired with each element.  The scan that consumes the result depends only
on sortedness and element multiset, which this shares with Python's
stable sort. -/
def sortBy (le : α → α → Bool) : List α → List α
  | [] => []
  | a :: rest => insertLe le a (sortBy le rest)

/-- Membership test k in v, as Python evaluates it: key lookup on dicts,
element equality on lists, substring test on strings, TypeError otherwise. -/
def pyContains (v : Json) (k : String) : Except PyExc Bool :=
  match v with
  | .obj kvs => .ok (kvs.any (fun kv => kv.1 == k))
  | .arr xs => .ok (xs.any (fun x => match x with | .str s => s == k | _ => false))
  | .str s => .ok (strHas s k)
  | _ => .error .typeError

/-- Subscript v[k] with a string key: dict lookup (KeyError when absent),
TypeError on every other value. -/
def pyIndex (v : Json) (k : String) : Except PyExc Json :=
  match v with
  | .obj kvs =>
    match kvs.find? (fun kv => kv.1 == k) with
    | some kv => .ok kv.2
    | none => .error .keyError
  | _ => .error .typeError

/-- Subscript v[i] with an integer index: list/str indexing (IndexError
when out of range), KeyError on dicts (the string keys here never equal an
integer), TypeError otherwise. -/
def pyIndexNat (v : Json) (i : Nat) : Except PyExc Json :=
  match v with
  | .arr xs =>
    match xs.get? i with
    | some x => .ok x
    | none => .error .indexError
  | .str s =>
    match s.data.get? i with
    | some c => .ok (.str (String.mk [c]))
    | none => .error .indexError
  | .obj _ => .error .keyError
  | _ => .error .typeError

/-- Built-in len(v): lists, strings and dicts are sized, everything else
raises TypeError. -/
def pyLen (v : Json) : Except PyExc Nat :=
  match v with
  | .arr xs => .ok xs.length
  | .str s => .ok s.length
  | .obj kvs => .ok kvs.length
  | _ => .error .typeError

/-- Method call v.get(k) with implicit default None: only dicts have the
method (AttributeError otherwise). -/
def pyGet (v : Json) (k : String) : Except PyExc Json :=
  match v with
  | .obj kvs =>
    match kvs.find? (fun kv => kv.1 == k) with
    | some kv => .ok kv.2
    | none => .ok .null
  | _ => .error .attributeError

/-- Method call v.get(k, d) with an explicit default. -/
def pyGetD (v : Json) (k : String) (d : Json) : Except PyExc Json :=
  match v with
  | .obj kvs =>
    match kvs.find? (fun kv => kv.1 == k) with
    | some kv => .ok kv.2
    | none => .ok d
  | _ => .error .attributeError

/-- Iteration over v: list elements, dict keys, string characters;
TypeError on non-iterables. -/
def pyIter (v : Json) : Except PyExc (List Json) :=
  match v with
  | .arr xs => .ok xs
  | .obj kvs => .ok (kvs.map (fun kv => .str kv.1))
  | .str s => .ok (s.data.map (fun c => .str (String.mk [c])))
  | _ => .error .typeError

/-- Python truthiness of a value. -/
def pyTruthy (v : Json) : Bool :=
  match v with
  | .null => false
  | .bool b => b
  | .num n => n != 0
  | .str s => s != ""
  | .arr xs => !xs.isEmpty
  | .obj kvs => !kvs.isEmpty

/-- Effectful map over a list in the Except monad, the order Python list
comprehensions and for loops evaluate in. -/
def mapE (f : α → Except PyExc β) : List α → Except PyExc (List β)
  | [] => .ok []
  | a :: as => do
    let b ← f a
    let bs ← mapE f as
    .ok (b :: bs)

/-- Dictionary store row_dict[col] = v: overwrite in place when the key is
present, append otherwise (Python dicts keep first-insertion order). -/
def upsert (kvs : List (String × Json)) (k : String) (v : Json) : List (String × Json) :=
  if kvs.any (fun kv => kv.1 == k) then
    kvs.map (fun kv => if kv.1 == k then (k, v) else kv)
  else kvs ++ [(k, v)]

/-- Loop for i, col in enumerate(columns): row_dict[col] = row[i] if
i < len(row) else None, from _convert_visualization_to_dict (lines 95-99).
The first argument is the current row, then the running index, the columns
still to process and the accumulated dict. -/
def buildRowObj (row : Json) : Nat → List String → List (String × Json) → Except PyExc (List (String × Json))
  | _, [], acc => .ok acc
  | i, c :: cs, acc => do
    let n ← pyLen row
    let v ← if i < n then pyIndexNat row i else pure Json.null
    buildRowObj row (i + 1) cs (upsert acc c v)

/-- Column identifier extraction, the comprehension
[col['id'] for col in doc.get('columns', [])] (line 90).  A non-string id
cannot serve as a key of the object representation used here; the claims
only concern string identifiers. -/
def extractColIds : List Json → Except PyExc (List String)
  | [] => .ok []
  | c :: cs => do
    let v ← pyIndex c "id"
    match v with
    | .str s => do
      let rest ← extractColIds cs
      .ok (s :: rest)
    | _ => .error .typeError

/-- Loop for row in rows building earnings_rows (lines 94-99). -/
def convertRows (cols : List String) : List Json → Except PyExc (List Json)
  | [] => .ok []
  | row :: rest => do
    let pairs ← buildRowObj row 0 cols []
    let others ← convertRows cols rest
    .ok (.obj pairs :: others)

/-- YahooEarningsCalendar._convert_visualization_to_dict (lines 88-122):
turn the columnar visualization document into the legacy nested dict. -/
def convertVisualization (result doc : Json) : Except PyExc Json := do
  let colsVal ← pyGetD doc "columns" (.arr [])
  let colItems ← pyIter colsVal
  let cols ← extractColIds colItems
  let rowsVal ← pyGetD doc "rows" (.arr [])
  let rowItems ← pyIter rowsVal
  let earningsRows ← convertRows cols rowItems
  let total ← pyGetD result "total" (.num rowItems.length)
  .ok (.obj [("context", .obj [("dispatcher", .obj [("stores", .obj
      [("ScreenerCriteriaStore", .obj [("meta", .obj [("total", total)])]),
       ("ScreenerResultsStore", .obj [("results", .obj [("rows", .arr earningsRows)])])])])])])

/-- Modelled from the spec: the page shape the fallback (inline-assignment)
strategy returns natively, with the ordered row list under
context.dispatcher.stores.ScreenerResultsStore.results.rows and the total
count under context.dispatcher.stores.ScreenerCriteriaStore.meta.total.
This is the spec-side description of a PageResultSet carrier, to be
compared with the structure the source builds. -/
def specLegacyShape (rows : List Json) (total : Json) : Json :=
  .obj [("context", .obj [("dispatcher", .obj [("stores", .obj
      [("ScreenerCriteriaStore", .obj [("meta", .obj [("total", total)])]),
       ("ScreenerResultsStore", .obj [("results", .obj [("rows", .arr rows)])])])])])]

/-- Test doc.get('entityIdType') == 'SP_EARNINGS' (line 81). -/
def docMatches (d : Json) : Except PyExc Bool := do
  let v ← pyGet d "entityIdType"
  pure (match v with | .str s => s == "SP_EARNINGS" | _ => false)

/-- Inner loop for doc in result['documents'] (lines 79-82); returns the
converted dict for the first SP_EARNINGS document, none when no document
matches. -/
def loopDocs (r : Json) : List Json → Except PyExc (Option Json)
  | [] => .ok none
  | d :: rest => do
    if (← docMatches d) then
      let conv ← convertVisualization r d
      pure (some conv)
    else loopDocs r rest

/-- Loop for result in body['finance']['result'] (lines 76-82). -/
def loopResults : List Json → Except PyExc (Option Json)
  | [] => .ok none
  | r :: rest => do
    let hd ← pyContains r "documents"
    if hd then
      let docs ← pyIndex r "documents"
      let ds ← pyIter docs
      match ← loopDocs r ds with
      | some out => pure (some out)
      | none => loopResults rest
    else loopResults rest

/-- Body of one iteration of for match in matches (lines 67-82), before
exception handling.  The jloads oracle models json.loads, returning none
on a JSONDecodeError.  A failed json.loads of the candidate or of its body
field is caught and yields no match (ok none); structural mismatches also
yield no match; a non-string body reaching json.loads is a TypeError. -/
def tryMatch (jloads : String → Option Json) (m : String) : Except PyExc (Option Json) :=
  match jloads m with
  | none => .ok none
  | some parsed => do
    let hb ← pyContains parsed "body"
    if hb then
      let bv ← pyIndex parsed "body"
      match bv with
      | .str s =>
        match jloads s with
        | none => .ok none
        | some body => do
          let hf ← pyContains body "finance"
          if hf then
            let fin ← pyIndex body "finance"
            let hr ← pyContains fin "result"
            if hr then
              let res ← pyIndex fin "result"
              let rs ← pyIter res
              loopResults rs
            else .ok none
          else .ok none
      | _ => .error .typeError
    else .ok none

/-- The candidate scan of _extract_earnings_from_sveltekit (lines 67-84):
per-candidate JSONDecodeError (modelled by tryMatch returning ok none) and
KeyError advance to the next candidate; other exceptions propagate. -/
def extractGo (jloads : String → Option Json) : List String → Except PyExc (Option Json)
  | [] => .ok none
  | m :: rest =>
    match tryMatch jloads m with
    | .ok (some d) => .ok (some d)
    | .ok none => extractGo jloads rest
    | .error .keyError => extractGo jloads rest
    | .error e => .error e

/-- YahooEarningsCalendar._extract_earnings_from_sveltekit (lines 61-86),
with the regex findall result supplied as the list of candidate strings. -/
def extractSvelte (jloads : String → Option Json) (cands : List String) : Except PyExc (Option Json) :=
  extractGo jloads cands

/-- Assignment marker of the legacy page layout (line 55). -/
def mainMarker : String := "root.App.main = "

/-- Fallback branch of _get_data_dict (lines 53-59) on the newline-split
page lines: first line starting with the marker, strip the trailing
semicolon and the marker, parse; IndexError (no such line) and
JSONDecodeError both become the ValueError at line 59. -/
def fallbackExtract (jloads : String → Option Json) (lines : List String) : Except PyExc Json :=
  match (lines.filter (fun r => pyStartsWith r mainMarker)).head? with
  | none => .error .unparseable
  | some line =>
    match jloads ((line.dropRight 1).drop mainMarker.length) with
    | some v => .ok v
    | none => .error .unparseable

/-- YahooEarningsCalendar._get_data_dict (lines 36-59) after the fetch:
primary sveltekit extraction, then the legacy fallback. -/
def getDataDict (jloads : String → Option Json) (cands : List String) (lines : List String) : Except PyExc Json :=
  match extractSvelte jloads cands with
  | .error e => .error e
  | .ok (some d) => .ok d
  | .ok none => fallbackExtract jloads lines

/-- Lookup page['context']['dispatcher']['stores'] (line 202). -/
def storesVal (j : Json) : Except PyExc Json := do
  pyIndex (← pyIndex (← pyIndex j "context") "dispatcher") "stores"

/-- Lookup stores['ScreenerResultsStore']['results']['rows']
(lines 208 and 263). -/
def pageRowsVal (j : Json) : Except PyExc Json := do
  pyIndex (← pyIndex (← pyIndex (← storesVal j) "ScreenerResultsStore") "results") "rows"

/-- Lookup stores['ScreenerCriteriaStore']['meta']['total'] (line 203). -/
def pageTotalVal (j : Json) : Except PyExc Json := do
  pyIndex (← pyIndex (← pyIndex (← storesVal j) "ScreenerCriteriaStore") "meta") "total"

/-- Possible date arguments handed to earnings_on.  Python's
datetime.datetime is a subclass of datetime.date, so both satisfy the
isinstance(date, datetime.date) test at line 194; notDate stands for every
other object. -/
inductive PyVal where
  | date (day : Nat)
  | datetime (day : Nat) (sec : Nat)
  | notDate
deriving DecidableEq, Repr

/-- The isinstance(date, datetime.date) test (line 194). -/
def isDateInstance (v : PyVal) : Bool :=
  match v with
  | .notDate => false
  | _ => true

/-- YahooEarningsCalendar.earnings_on (lines 167-210).  The fetcher F
abstracts the network fetch plus extraction plus store reads for the fixed
query date: F offset yields the rows list of the page at that offset and
the server-reported total.  The outer Option is fuel exhaustion (the
Python recursion need not terminate against an inconsistent server); the
fetch count performed by the call is returned next to the records. -/
def earningsOn (F : Nat → List α × Nat) : Nat → PyVal → Nat → Nat → Option (Except PyExc (List α × Nat))
  | 0, _, _, _ => none
  | fuel + 1, d, offset, count =>
    if count ≤ offset then some (.ok ([], 0))
    else if !isDateInstance d then some (.error .typeError)
    else
      match earningsOn F fuel d (offset + 100) (F offset).2 with
      | none => none
      | some (.error e) => some (.error e)
      | some (.ok (more, n)) => some (.ok ((F offset).1 ++ more, n + 1))

/-- While loop of earnings_between (lines 246-248); days are modelled as
day ordinals, current_date += timedelta(days=1) is successor. -/
def betweenLoop (F : Nat → Nat → List α × Nat) (fuel toD : Nat) (cur : Nat) : Option (Except PyExc (List α)) :=
  if cur ≤ toD then
    match earningsOn (F cur) fuel (.date cur) 0 1 with
    | none => none
    | some (.error e) => some (.error e)
    | some (.ok (recs, _)) =>
      match betweenLoop F fuel toD (cur + 1) with
      | none => none
      | some (.error e) => some (.error e)
      | some (.ok rest) => some (.ok (recs ++ rest))
  else some (.ok [])
termination_by toD + 1 - cur

/-- YahooEarningsCalendar.earnings_between (lines 212-249).  Both bounds
are calendar dates here, so the isinstance test at lines 239-242 passes;
the range check at line 236 precedes it in the source. -/
def earningsBetween (F : Nat → Nat → List α × Nat) (fuel : Nat) (fromD toD : Nat) : Option (Except PyExc (List α)) :=
  if toD < fromD then some (.error .invalidRange)
  else betweenLoop F fuel toD fromD

/-- YahooEarningsCalendar.get_earnings_of (lines 251-265): read the rows
from the already-extracted calendar page; the bare except turns every
failure into the collapsed exception. -/
def getEarningsOf (calPage : Except PyExc Json) : Except PyExc Json :=
  match calPage with
  | .error _ => .error .collapsed
  | .ok j =>
    match pageRowsVal j with
    | .ok v => .ok v
    | .error _ => .error .collapsed

/-- Result of get_next_earnings_date: the raw legacy value (line 138), a
computed timestamp (line 158), or Python's implicit None when the earnings
list is empty. -/
inductive NextRes where
  | raw (v : Json)
  | ts (t : Int)
  | nothing

/-- The nested legacy lookup at line 138. -/
def legacyAttempt (page : Json) : Except PyExc Json := do
  let s ← storesVal page
  let q ← pyIndex s "QuoteSummaryStore"
  let c ← pyIndex q "calendarEvents"
  let e ← pyIndex c "earnings"
  let d ← pyIndex e "earningsDate"
  let f ← pyIndexNat d 0
  pyIndex f "raw"

/-- Sort key earning.get('startdatetime', '') (lines 147-148).  A record
must be a dict (AttributeError otherwise); a non-string value would make
the sort comparison a TypeError, surfaced here at key extraction. -/
def startKey (r : Json) : Except PyExc String :=
  match r with
  | .obj kvs =>
    match kvs.find? (fun kv => kv.1 == "startdatetime") with
    | none => .ok ""
    | some kv =>
      match kv.2 with
      | .str s => .ok s
      | _ => .error .typeError
  | _ => .error .attributeError

/-- The datetime substring handed to strptime (line 155): everything
before the first dot when a dot occurs, the first 19 characters
otherwise. -/
def dtCut (s : String) : String :=
  if s.data.contains '.' then String.mk (s.data.takeWhile (fun c => c ≠ '.'))
  else String.mk (s.data.take 19)

/-- Composite parse gate of one loop iteration (lines 148-156): the entry
must be non-empty, contain a T, and strptime must accept the cut string.
The strp oracle models datetime.strptime composed with timestamp(); the
model compares timestamps where Python compares the parsed datetimes,
which agree for a monotone timestamp embedding. -/
def parsePipe (strp : String → Option Int) (s : String) : Option Int :=
  if s ≠ "" ∧ s.data.contains 'T' then strp (dtCut s) else none

/-- Scan loop over the records sorted by start key (lines 147-160): return
the first entry whose parsed start is at or after now, skip empty,
T-less and unparsable entries, raise when the loop completes (line 161). -/
def scanNext (strp : String → Option Int) (now : Int) : List (String × Json) → Except PyExc NextRes
  | [] => .error .noUpcoming
  | (s, _) :: rest =>
    if s ≠ "" then
      if s.data.contains 'T' then
        match strp (dtCut s) with
        | some t => if now ≤ t then .ok (.ts t) else scanNext strp now rest
        | none => scanNext strp now rest
      else scanNext strp now rest
    else scanNext strp now rest

/-- Body of the outer try of get_next_earnings_date (lines 134-161):
quotePage abstracts _get_data_dict on the quote url, calPage the page
get_earnings_of fetches.  The legacy attempt's KeyError, TypeError and
IndexError fall through to the sveltekit path (lines 137-140); an empty or
falsy earnings list skips the scan and the function ends returning None. -/
def getNextInner (quotePage calPage : Except PyExc Json) (strp : String → Option Int) (now : Int) : Except PyExc NextRes := do
  let page ← quotePage
  match legacyAttempt page with
  | .ok v => .ok (.raw v)
  | .error e =>
    if e = .keyError ∨ e = .typeError ∨ e = .indexError then do
      let earns ← getEarningsOf calPage
      let n ← if pyTruthy earns then pyLen earns else pure 0
      if 0 < n then do
        let items ← pyIter earns
        let pairs ← mapE (fun r => do let k ← startKey r; pure (k, r)) items
        scanNext strp now (sortBy (fun a b => strLe a.1 b.1) pairs)
      else .ok .nothing
    else .error e

/-- YahooEarningsCalendar.get_next_earnings_date (lines 124-165): any
exception escaping the body is collapsed into the catch-all Exception of
lines 162-165. -/
def getNextEarningsDate (quotePage calPage : Except PyExc Json) (strp : String → Option Int) (now : Int) : Except PyExc NextRes :=
  match getNextInner quotePage calPage strp now with
  | .ok v => .ok v
  | .error _ => .error .collapsed

/-- Columnar visualization document carrying the earnings marker, a column
list of identifier objects and positional rows; the canonical well-formed
input shape of _convert_visualization_to_dict. -/
def mkColDoc (cols : List String) (rows : List (List Json)) : Json :=
  .obj [("entityIdType", .str "SP_EARNINGS"),
        ("columns", .arr (cols.map (fun c => .obj [("id", .str c)]))),
        ("rows", .arr (rows.map Json.arr))]

/-- Pure form of buildRowObj on a list row: the dict built by writing, for
each column position, the row value at that position or null past the row
end. -/
def buildRowPure (l : List Json) : Nat → List String → List (String × Json) → List (String × Json)
  | _, [], acc => acc
  | i, c :: cs, acc =>
    buildRowPure l (i + 1) cs (upsert acc c (if i < l.length then l.getD i .null else .null))

/-- Normalized record objects of a columnar document. -/
def rowObjs (cols : List String) (rows : List (List Json)) : List Json :=
  rows.map (fun l => Json.obj (buildRowPure l 0 cols []))

/-- Result element of the visualization payload: the documents list plus
the total field. -/
def mkResultJson (cols : List String) (rows : List (List Json)) (t : Json) : Json :=
  .obj [("documents", .arr [mkColDoc cols rows]), ("total", t)]

/-- Body payload of a sveltekit candidate for the given logical data. -/
def mkBodyJson (cols : List String) (rows : List (List Json)) (t : Json) : Json :=
  .obj [("finance", .obj [("result", .arr [mkResultJson cols rows t])])]

/-- Key lookup in an association-list dictionary, first match wins (keys
are unique in every dict the code builds, since upsert overwrites). -/
def alookup (k : String) : List (String × Json) → Option Json
  | [] => none
  | kv :: rest => if kv.1 = k then some kv.2 else alookup k rest

/-- Number of pages still to fetch for a consistent server total T when
the cursor stands at offset: the ceiling of (T - offset) / 100. -/
def rem (T offset : Nat) : Nat := (T - offset + 99) / 100

/-- Concatenation, in increasing offset order, of the pages a consistent
fetcher serves from the given offset on. -/
def pagesFrom (F : Nat → List α × Nat) (T offset : Nat) : List α :=
  ((List.range (rem T offset)).map (fun i => (F (offset + 100 * i)).1)).flatten

/-- Bind of a success in the Except monad reduces to the continuation. -/
theorem okBind {ε α β : Type} (a : α) (f : α → Except ε β) :
    (Except.ok a : Except ε α) >>= f = f a := rfl

/-- Bind of a failure in the Except monad propagates the failure. -/
theorem errBind {ε α β : Type} (e : ε) (f : α → Except ε β) :
    (Except.error e : Except ε α) >>= f = .error e := rfl

theorem rem_eq_zero_iff (T offset : Nat) : rem T offset = 0 ↔ T ≤ offset := by
  unfold rem
  omega

theorem rem_succ_eq (T offset : Nat) (h : offset < T) :
    rem T (offset + 100) + 1 = rem T offset := by
  unfold rem
  omega

theorem pagesFrom_nil (F : Nat → List α × Nat) (T offset : Nat) (h : T ≤ offset) :
    pagesFrom F T offset = [] := by
  unfold pagesFrom
  rw [(rem_eq_zero_iff T offset).2 h]
  rfl

theorem pagesFrom_cons (F : Nat → List α × Nat) (T offset : Nat) (h : offset < T) :
    pagesFrom F T offset = (F offset).1 ++ pagesFrom F T (offset + 100) := by
  unfold pagesFrom
  rw [← rem_succ_eq T offset h, List.range_succ_eq_map, List.map_cons, List.map_map,
    List.flatten_cons, Nat.mul_zero, Nat.add_zero]
  congr 2
  apply List.map_congr_left
  intro i _
  simp only [Function.comp_apply]
  congr 2
  omega

theorem earningsOn_consistent (F : Nat → List α × Nat) (T day : Nat)
    (hF : ∀ k, (F k).2 = T) :
    ∀ f offset, rem T offset ≤ f →
      earningsOn F (f + 1) (.date day) offset T
        = some (.ok (pagesFrom F T offset, rem T offset)) := by
  intro f
  induction f with
  | zero =>
    intro offset hr
    have h0 : rem T offset = 0 := by omega
    have hT : T ≤ offset := (rem_eq_zero_iff T offset).1 h0
    rw [h0, pagesFrom_nil F T offset hT]
    simp [earningsOn, hT]
  | succ n ih =>
    intro offset hr
    by_cases hT : T ≤ offset
    · have h0 : rem T offset = 0 := (rem_eq_zero_iff T offset).2 hT
      rw [h0, pagesFrom_nil F T offset hT]
      simp [earningsOn, hT]
    · have hlt : offset < T := by omega
      have hrec : rem T (offset + 100) ≤ n := by
        have := rem_succ_eq T offset hlt
        omega
      have hstep : earningsOn F (n + 1 + 1) (.date day) offset T
          = match earningsOn F (n + 1) (.date day) (offset + 100) (F offset).2 with
            | none => none
            | some (.error e) => some (.error e)
            | some (.ok (more, m)) => some (.ok ((F offset).1 ++ more, m + 1)) := by
        simp [earningsOn, hT, isDateInstance]
      rw [hstep, hF offset, ih (offset + 100) hrec]
      rw [pagesFrom_cons F T offset hlt, ← rem_succ_eq T offset hlt]

theorem pagesFrom_length (F : Nat → List α × Nat) (T : Nat)
    (hLen : ∀ k, ((F k).1).length = min 100 (T - k)) :
    ∀ n offset, T - offset ≤ 100 * n → (pagesFrom F T offset).length = T - offset := by
  intro n
  induction n with
  | zero =>
    intro offset h
    have hT : T ≤ offset := by omega
    rw [pagesFrom_nil F T offset hT]
    simp
    omega
  | succ m ih =>
    intro offset h
    by_cases hT : T ≤ offset
    · rw [pagesFrom_nil F T offset hT]
      simp
      omega
    · have hlt : offset < T := by omega
      rw [pagesFrom_cons F T offset hlt, List.length_append, hLen offset,
        ih (offset + 100) (by omega)]
      omega

/-- C1 counterexample: a day whose server-reported total is zero still
costs one probe fetch (the fetch counter is 1), while the claimed fetch
count ceil(0/100) is 0. -/
theorem earnings_on_zero_total_counterexample :
    earningsOn (fun _ => (([] : List Nat), 0)) 2 (.date 0) 0 1 = some (.ok ([], 1))
    ∧ (1 : Nat) ≠ (0 + 99) / 100 :=
  ⟨rfl, by decide⟩

/-- C1 amended: against a consistent server with total T (every page
reports total T and carries min 100 (T - offset) records), the default
call earnings_on(date) issues exactly max 1 (ceil(T/100)) fetches - that
is ceil(T/100) fetches when T is at least 1, and a single probe fetch
when T = 0 - and returns exactly T records, the pages concatenated in
increasing offset order. -/
theorem earnings_on_pagination_amended (F : Nat → List α × Nat) (T day fuel : Nat)
    (hF : ∀ k, (F k).2 = T) (hLen : ∀ k, ((F k).1).length = min 100 (T - k))
    (hfuel : (T + 99) / 100 + 2 ≤ fuel) :
    earningsOn F fuel (.date day) 0 1
      = some (.ok (((List.range (max 1 ((T + 99) / 100))).map (fun i => (F (100 * i)).1)).flatten,
          max 1 ((T + 99) / 100)))
    ∧ (((List.range (max 1 ((T + 99) / 100))).map (fun i => (F (100 * i)).1)).flatten).length = T := by
  have hrem100 : rem T 100 ≤ (T + 99) / 100 := by unfold rem; omega
  have hmax : max 1 ((T + 99) / 100) = rem T 100 + 1 := by unfold rem; omega
  obtain ⟨f, rfl⟩ : ∃ f, fuel = f + 1 + 1 := ⟨fuel - 2, by omega⟩
  have hstep : earningsOn F (f + 1 + 1) (.date day) 0 1
      = match earningsOn F (f + 1) (.date day) (0 + 100) (F 0).2 with
        | none => none
        | some (.error e) => some (.error e)
        | some (.ok (more, m)) => some (.ok ((F 0).1 ++ more, m + 1)) := by
    simp [earningsOn, isDateInstance]
  have hflat : ((List.range (max 1 ((T + 99) / 100))).map (fun i => (F (100 * i)).1)).flatten
      = (F 0).1 ++ pagesFrom F T 100 := by
    rw [hmax, List.range_succ_eq_map, List.map_cons, List.map_map, List.flatten_cons,
      Nat.mul_zero]
    congr 2
    apply List.map_congr_left
    intro i _
    simp only [Function.comp_apply]
    congr 2
    omega
  constructor
  · rw [hstep, hF 0]
    have h100 : (0 : Nat) + 100 = 100 := by norm_num
    rw [h100, earningsOn_consistent F T day hF f 100 (by omega)]
    rw [hflat, hmax]
  · rw [hflat, List.length_append, hLen 0,
      pagesFrom_length F T hLen T 100 (by omega)]
    omega

theorem earnings_on_pagination_amended_witness :
    earningsOn (fun k => (List.replicate (min 100 (150 - k)) 0, 150)) 10 (.date 7) 0 1
      = some (.ok (((List.range (max 1 ((150 + 99) / 100))).map
          (fun i => ((fun k => (List.replicate (min 100 (150 - k)) 0, 150)) (100 * i)).1)).flatten,
          max 1 ((150 + 99) / 100)))
    ∧ (((List.range (max 1 ((150 + 99) / 100))).map
          (fun i => ((fun k => (List.replicate (min 100 (150 - k)) 0, 150)) (100 * i)).1)).flatten).length = 150 :=
  earnings_on_pagination_amended (fun k => (List.replicate (min 100 (150 - k)) 0, 150)) 150 7 10
    (fun _ => rfl) (fun k => by simp) (by decide)

/-- Loop invariant of earnings_between: once every day of the remaining
window answers, the loop concatenates the days in chronological order. -/
theorem betweenLoop_eq (F : Nat → Nat → List α × Nat) (fuel b : Nat)
    (g : Nat → List α) (gn : Nat → Nat) :
    ∀ k a, b + 1 - a ≤ k →
      (∀ d, a ≤ d → d ≤ b → earningsOn (F d) fuel (.date d) 0 1 = some (.ok (g d, gn d))) →
      betweenLoop F fuel b a
        = some (.ok (((List.range (b + 1 - a)).map (fun i => g (a + i))).flatten)) := by
  intro k
  induction k with
  | zero =>
    intro a hk _
    have ha : ¬ a ≤ b := by omega
    rw [betweenLoop, if_neg ha]
    have h0 : b + 1 - a = 0 := by omega
    rw [h0]
    rfl
  | succ m ih =>
    intro a hk hdays
    by_cases ha : a ≤ b
    · have hsz : b + 1 - a = (b + 1 - (a + 1)) + 1 := by omega
      have hr : ((List.range (b + 1 - a)).map (fun i => g (a + i))).flatten
          = g a ++ ((List.range (b + 1 - (a + 1))).map (fun i => g (a + 1 + i))).flatten := by
        rw [hsz, List.range_succ_eq_map, List.map_cons, List.flatten_cons, List.map_map]
        congr 2
        apply List.map_congr_left
        intro i _
        simp only [Function.comp_apply]
        congr 1
        omega
      rw [betweenLoop, if_pos ha, hdays a (Nat.le_refl a) ha,
        ih (a + 1) (by omega) (fun d h1 h2 => hdays d (by omega) h2), hr]
    · rw [betweenLoop, if_neg ha]
      have h0 : b + 1 - a = 0 := by omega
      rw [h0]
      rfl

/-- C7: earnings_between raises the InvalidRange ValueError whenever the
from-date is after the to-date; with equal bounds it returns exactly the
single day's earnings_on records; and over a proper range it concatenates
the days' results in chronological day order over the inclusive window. -/
theorem earnings_between_spec (F : Nat → Nat → List α × Nat) (fuel a b : Nat)
    (g : Nat → List α) (gn : Nat → Nat) :
    (b < a → earningsBetween F fuel a b = some (.error .invalidRange))
    ∧ (∀ L n, earningsOn (F a) fuel (.date a) 0 1 = some (.ok (L, n)) →
        earningsBetween F fuel a a = some (.ok L))
    ∧ (a ≤ b →
        (∀ d, a ≤ d → d ≤ b → earningsOn (F d) fuel (.date d) 0 1 = some (.ok (g d, gn d))) →
        earningsBetween F fuel a b
          = some (.ok (((List.range (b + 1 - a)).map (fun i => g (a + i))).flatten))) := by
  refine ⟨?_, ?_, ?_⟩
  · intro h
    rw [earningsBetween, if_pos h]
  · intro L n hday
    rw [earningsBetween, if_neg (by omega)]
    rw [betweenLoop, if_pos (Nat.le_refl a), hday,
      betweenLoop, if_neg (by omega : ¬ a + 1 ≤ a)]
    simp
  · intro hab hdays
    rw [earningsBetween, if_neg (by omega)]
    exact betweenLoop_eq F fuel b g gn (b + 1 - a) a (Nat.le_refl _) hdays

theorem earnings_between_spec_witness :
    earningsBetween (fun d _ => ([d], 1)) 2 3 1 = some (.error .invalidRange)
    ∧ earningsBetween (fun d _ => ([d], 1)) 2 2 2 = some (.ok [2])
    ∧ earningsBetween (fun d _ => ([d], 1)) 2 1 2 = some (.ok [1, 2]) := by
  refine ⟨(earnings_between_spec (fun d _ => ([d], 1)) 2 3 1 (fun d => [d]) (fun _ => 1)).1 (by decide), ?_, ?_⟩
  · exact (earnings_between_spec (fun d _ => ([d], 1)) 2 2 2 (fun d => [d]) (fun _ => 1)).2.1 [2] 1 rfl
  · exact (earnings_between_spec (fun d _ => ([d], 1)) 2 1 2 (fun d => [d]) (fun _ => 1)).2.2
      (by decide) (fun d _ _ => rfl)

/-- C5: for every valid (offset, limit) pair with offset at or past the
limit, earnings_on returns the empty list and performs no network fetch
(the fetch counter of the result is zero); the date argument is a proper
calendar date. -/
theorem earnings_on_short_circuit {α : Type} (F : Nat → List α × Nat)
    (fuel day offset count : Nat) (h : count ≤ offset) :
    earningsOn F (fuel + 1) (.date day) offset count = some (.ok ([], 0)) := by
  simp [earningsOn, h]

theorem earnings_on_short_circuit_witness :
    (3 : Nat) ≤ 5 ∧
      earningsOn (fun _ => (([] : List Nat), 0)) 1 (.date 0) 5 3 = some (.ok ([], 0)) :=
  ⟨by decide, earnings_on_short_circuit (fun _ => (([] : List Nat), 0)) 0 0 5 3 (by decide)⟩

/-- C9: the offset-versus-count short circuit at line 191 runs before the
isinstance test at line 194, so even a date argument that is no date
object at all yields the empty list with no error and no fetch whenever
offset is at or past count. -/
theorem earnings_on_shortcircuit_before_typecheck {α : Type} (F : Nat → List α × Nat)
    (fuel offset count : Nat) (h : count ≤ offset) :
    earningsOn F (fuel + 1) .notDate offset count = some (.ok ([], 0)) := by
  simp [earningsOn, h]

theorem earnings_on_shortcircuit_before_typecheck_witness :
    (0 : Nat) ≤ 0 ∧
      earningsOn (fun _ => (([] : List Nat), 7)) 1 .notDate 0 0 = some (.ok ([], 0)) :=
  ⟨by decide, earnings_on_shortcircuit_before_typecheck (fun _ => (([] : List Nat), 7)) 0 0 0 (by decide)⟩

/-- C8 counterexample: a datetime value, which carries a time component
and is not a pure calendar date, is accepted by earnings_on without any
error, because datetime.datetime is a subclass of datetime.date; the
claim that every such input fails with InvalidArgument is false. -/
theorem earnings_on_datetime_counterexample :
    earningsOn (fun _ => (([] : List Nat), 0)) 2 (.datetime 5 3600) 0 1 = some (.ok ([], 1))
    ∧ ∀ e : PyExc,
        earningsOn (fun _ => (([] : List Nat), 0)) 2 (.datetime 5 3600) 0 1 ≠ some (.error e) := by
  refine ⟨rfl, ?_⟩
  intro e h
  rw [show earningsOn (fun _ => (([] : List Nat), 0)) 2 (.datetime 5 3600) 0 1
      = some (.ok ([], 1)) from rfl] at h
  simp at h

/-- C8 amended: earnings_on raises TypeError (the InvalidArgument of the
spec) exactly for date arguments that are not datetime.date instances and
only when the short circuit does not fire; a datetime.datetime value,
although it carries a time component, is an instance of datetime.date and
is treated exactly like the corresponding date. -/
theorem earnings_on_type_check_amended {α : Type} (F : Nat → List α × Nat)
    (fuel offset count day sec : Nat) :
    (offset < count →
      earningsOn F (fuel + 1) .notDate offset count = some (.error .typeError))
    ∧ earningsOn F fuel (.datetime day sec) offset count
        = earningsOn F fuel (.date day) offset count := by
  constructor
  · intro h
    have h' : ¬ count ≤ offset := by omega
    simp [earningsOn, h', isDateInstance]
  · induction fuel generalizing offset count with
    | zero => rfl
    | succ n ih =>
      by_cases h : count ≤ offset
      · simp [earningsOn, h]
      · simp only [earningsOn, h, if_neg h, isDateInstance, Bool.not_true,
          Bool.false_eq_true, if_false]
        rw [ih]

theorem earnings_on_type_check_amended_witness :
    ((0 : Nat) < 1 ∧
      earningsOn (fun _ => (([] : List Nat), 0)) 1 .notDate 0 1 = some (.error .typeError))
    ∧ earningsOn (fun _ => (([] : List Nat), 0)) 2 (.datetime 4 5) 0 1
        = earningsOn (fun _ => (([] : List Nat), 0)) 2 (.date 4) 0 1 :=
  ⟨⟨by decide,
    (earnings_on_type_check_amended (fun _ => (([] : List Nat), 0)) 0 0 1 4 5).1 (by decide)⟩,
   (earnings_on_type_check_amended (fun _ => (([] : List Nat), 0)) 2 0 1 4 5).2⟩

/-- C3: when the sveltekit strategy finds no matching document and the
fallback fails too (no line starts with the assignment marker, or the
stripped first such line does not parse), _get_data_dict raises its
ValueError (UnparseableFormat); moreover a candidate whose parse fails
(tryMatch yields no match) or whose processing hits a missing key only
advances the scan to the next candidate, never failing immediately. -/
theorem get_data_dict_unparseable (jl : String → Option Json)
    (cands lines : List String) (m : String)
    (h1 : extractSvelte jl cands = .ok none)
    (h2 : (lines.filter (fun r => pyStartsWith r mainMarker)) = [] ∨
      ∃ line rest, (lines.filter (fun r => pyStartsWith r mainMarker)) = line :: rest ∧
        jl ((line.dropRight 1).drop mainMarker.length) = none) :
    getDataDict jl cands lines = .error .unparseable
    ∧ (tryMatch jl m = .ok none → extractGo jl (m :: cands) = extractGo jl cands)
    ∧ (tryMatch jl m = .error .keyError → extractGo jl (m :: cands) = extractGo jl cands) := by
  refine ⟨?_, ?_, ?_⟩
  · unfold getDataDict
    rw [h1]
    unfold fallbackExtract
    rcases h2 with h2 | ⟨line, rest, hfil, hjl⟩
    · rw [h2]; rfl
    · rw [hfil]
      simp only [List.head?]
      rw [hjl]
  · intro hm
    have hstep : extractGo jl (m :: cands)
        = match tryMatch jl m with
          | .ok (some d) => .ok (some d)
          | .ok none => extractGo jl cands
          | .error .keyError => extractGo jl cands
          | .error e => .error e := rfl
    rw [hstep, hm]
  · intro hm
    have hstep : extractGo jl (m :: cands)
        = match tryMatch jl m with
          | .ok (some d) => .ok (some d)
          | .ok none => extractGo jl cands
          | .error .keyError => extractGo jl cands
          | .error e => .error e := rfl
    rw [hstep, hm]

theorem get_data_dict_unparseable_witness :
    extractSvelte (fun _ => none) ["x"] = .ok none ∧
    getDataDict (fun _ => none) ["x"] ["hello"] = .error .unparseable :=
  ⟨rfl,
    (get_data_dict_unparseable (fun _ => none) ["x"] ["hello"] "y" rfl
      (Or.inl (by decide))).1⟩

theorem buildRowObj_arr (l : List Json) :
    ∀ cs i acc, buildRowObj (.arr l) i cs acc = .ok (buildRowPure l i cs acc) := by
  intro cs
  induction cs with
  | nil => intro i acc; rfl
  | cons c cs ih =>
    intro i acc
    by_cases h : i < l.length
    · have hv : pyIndexNat (.arr l) i = .ok (l.getD i .null) := by
        simp [pyIndexNat, List.get?_eq_getElem?, List.getElem?_eq_getElem h,
          List.getD_eq_getElem?_getD]
      simp [buildRowObj, pyLen, okBind, h, hv, ih, buildRowPure]
    · simp [buildRowObj, pyLen, okBind, h, ih, buildRowPure]

theorem extractColIds_mk (cols : List String) :
    extractColIds (cols.map (fun c => Json.obj [("id", .str c)])) = .ok cols := by
  induction cols with
  | nil => rfl
  | cons c cs ih =>
    have hx : pyIndex (Json.obj [("id", .str c)]) "id" = .ok (.str c) := rfl
    simp [extractColIds, hx, okBind, ih]

theorem convertRows_mk (cols : List String) (rows : List (List Json)) :
    convertRows cols (rows.map Json.arr) = .ok (rowObjs cols rows) := by
  induction rows with
  | nil => rfl
  | cons l ls ih => simp [convertRows, buildRowObj_arr, okBind, ih, rowObjs]

theorem convertVisualization_mk (res : Json) (cols : List String) (rows : List (List Json))
    (tval : Json) (hres : pyGetD res "total" (.num rows.length) = .ok tval) :
    convertVisualization res (mkColDoc cols rows)
      = .ok (specLegacyShape (rowObjs cols rows) tval) := by
  have h1 : pyGetD (mkColDoc cols rows) "columns" (.arr [])
      = .ok (.arr (cols.map (fun c => Json.obj [("id", .str c)]))) := rfl
  have h2 : pyGetD (mkColDoc cols rows) "rows" (.arr []) = .ok (.arr (rows.map Json.arr)) := rfl
  have h3 : pyIter (.arr (cols.map (fun c => Json.obj [("id", .str c)])))
      = .ok (cols.map (fun c => Json.obj [("id", .str c)])) := rfl
  have h4 : pyIter (.arr (rows.map Json.arr)) = .ok (rows.map Json.arr) := rfl
  have h5 : (rows.map Json.arr).length = rows.length := by simp
  simp [convertVisualization, h1, h2, h3, h4, h5, okBind, extractColIds_mk, convertRows_mk,
    hres, specLegacyShape]


theorem alookup_replace_self (k' : String) (v : Json) :
    ∀ kvs : List (String × Json), (kvs.any fun p => p.1 == k') = true →
      alookup k' (kvs.map fun p => if p.1 = k' then (k', v) else p) = some v := by
  intro kvs
  induction kvs with
  | nil => intro h; simp at h
  | cons kv rest ih =>
    intro h
    by_cases hh : kv.1 = k'
    · simp [alookup, hh]
    · have hrest : (rest.any fun p => p.1 == k') = true := by
        simp [List.any_cons, hh] at h
        simpa using h
      simp [alookup, hh, ih hrest]

theorem alookup_replace_ne (k k' : String) (v : Json) (hk : k' ≠ k) :
    ∀ kvs : List (String × Json),
      alookup k (kvs.map fun p => if p.1 = k' then (k', v) else p) = alookup k kvs := by
  intro kvs
  induction kvs with
  | nil => rfl
  | cons kv rest ih =>
    by_cases hh : kv.1 = k'
    · simp [alookup, hh, hk, ih]
    · by_cases hk2 : kv.1 = k
      · have hkk : ¬ k = k' := fun he => hh (by rw [hk2, he])
        simp [alookup, hh, hk2, hkk]
      · simp [alookup, hh, hk2, ih]

theorem alookup_append_single (k k' : String) (v : Json) :
    ∀ kvs : List (String × Json),
      alookup k (kvs ++ [(k', v)])
        = match alookup k kvs with
          | some w => some w
          | none => if k' = k then some v else none := by
  intro kvs
  induction kvs with
  | nil => rfl
  | cons kv rest ih =>
    by_cases hh : kv.1 = k
    · simp [alookup, hh]
    · simp [alookup, hh, ih]

theorem any_false_alookup (k' : String) :
    ∀ kvs : List (String × Json), (kvs.any fun p => p.1 == k') = false →
      alookup k' kvs = none := by
  intro kvs
  induction kvs with
  | nil => intro _; rfl
  | cons kv rest ih =>
    intro h
    simp only [List.any_cons, Bool.or_eq_false_iff] at h
    have hh : ¬ kv.1 = k' := by simpa using h.1
    simp [alookup, hh, ih h.2]

theorem alookup_upsert (k k' : String) (v : Json) (kvs : List (String × Json)) :
    alookup k (upsert kvs k' v) = if k' = k then some v else alookup k kvs := by
  unfold upsert
  have hmap : (kvs.map fun p => if p.1 == k' then (k', v) else p)
      = kvs.map fun p => if p.1 = k' then (k', v) else p := by
    apply List.map_congr_left
    intro p _
    by_cases h : p.1 = k' <;> simp [h]
  by_cases hany : (kvs.any fun p => p.1 == k') = true
  · rw [if_pos hany, hmap]
    by_cases hk : k' = k
    · subst hk
      rw [if_pos rfl]
      exact alookup_replace_self k' v kvs hany
    · rw [if_neg hk, alookup_replace_ne k k' v hk kvs]
  · rw [if_neg hany, alookup_append_single]
    by_cases hk : k' = k
    · have hnone : alookup k kvs = none := by
        have h := any_false_alookup k' kvs (by rwa [Bool.not_eq_true] at hany)
        rwa [hk] at h
      rw [hnone]
    · cases h : alookup k kvs <;> simp [h, hk]

theorem buildRowPure_alookup_skip (l : List Json) :
    ∀ cs i acc c, c ∉ cs → alookup c (buildRowPure l i cs acc) = alookup c acc := by
  intro cs
  induction cs with
  | nil => intro i acc c _; rfl
  | cons c0 cs ih =>
    intro i acc c hc
    have hne : c0 ≠ c := fun he => hc (he ▸ List.mem_cons_self c0 cs)
    have hcs : c ∉ cs := fun hm => hc (List.mem_cons_of_mem c0 hm)
    rw [buildRowPure, ih (i + 1) _ c hcs, alookup_upsert, if_neg hne]

theorem buildRowPure_alookup_at (l : List Json) :
    ∀ cs i acc, cs.Nodup → ∀ j, ∀ hj : j < cs.length,
      alookup (cs.get ⟨j, hj⟩) (buildRowPure l i cs acc)
        = some (if i + j < l.length then l.getD (i + j) .null else .null) := by
  intro cs
  induction cs with
  | nil => intro i acc _ j hj; exact absurd hj (by simp)
  | cons c0 cs ih =>
    intro i acc hnd j hj
    rcases List.nodup_cons.1 hnd with ⟨hc0, hnd'⟩
    cases j with
    | zero =>
      rw [show (c0 :: cs).get ⟨0, hj⟩ = c0 from rfl, buildRowPure,
        buildRowPure_alookup_skip l cs (i + 1) _ c0 hc0, alookup_upsert, if_pos rfl,
        Nat.add_zero]
    | succ j' =>
      have hj' : j' < cs.length := by
        simpa using hj
      rw [show (c0 :: cs).get ⟨j' + 1, hj⟩ = cs.get ⟨j', hj'⟩ from rfl, buildRowPure,
        ih (i + 1) _ hnd' j' hj']
      congr 1
      have : i + (j' + 1) = i + 1 + j' := by omega
      rw [this]

theorem buildRowPure_mem_isSome (l : List Json) :
    ∀ cs i acc c, c ∈ cs ∨ (alookup c acc).isSome →
      (alookup c (buildRowPure l i cs acc)).isSome := by
  intro cs
  induction cs with
  | nil =>
    intro i acc c hc
    rcases hc with hc | hc
    · exact absurd hc (by simp)
    · exact hc
  | cons c0 cs ih =>
    intro i acc c hc
    rw [buildRowPure]
    apply ih
    by_cases he : c0 = c
    · right
      rw [alookup_upsert, if_pos he]
      rfl
    · rcases hc with hc | hc
      · rcases List.mem_cons.1 hc with hc1 | hc1
        · exact absurd hc1.symm he
        · exact Or.inl hc1
      · right
        rw [alookup_upsert, if_neg he]
        exact hc

/-- Pure in the Except monad is the ok constructor. -/
theorem pureE {ε α : Type} (a : α) : (pure a : Except ε α) = .ok a := rfl

/-- C6: feeding the normalizer a columnar document with N rows and M
column identifiers produces exactly N record mappings; every record
contains all M column identifiers as keys, and (for distinct identifiers)
a column whose position lies at or past the row's end maps to null. -/
theorem convert_rows_shape (cols : List String) (rows : List (List Json)) (tt : Int) :
    convertVisualization (Json.obj [("total", .num tt)]) (mkColDoc cols rows)
      = .ok (specLegacyShape (rowObjs cols rows) (.num tt))
    ∧ (rowObjs cols rows).length = rows.length
    ∧ (∀ l : List Json, ∀ c ∈ cols, (alookup c (buildRowPure l 0 cols [])).isSome)
    ∧ (cols.Nodup → ∀ l : List Json, ∀ j, ∀ hj : j < cols.length, l.length ≤ j →
        alookup (cols.get ⟨j, hj⟩) (buildRowPure l 0 cols []) = some .null) := by
  refine ⟨convertVisualization_mk _ cols rows _ rfl, by simp [rowObjs], ?_, ?_⟩
  · intro l c hc
    exact buildRowPure_mem_isSome l cols 0 [] c (Or.inl hc)
  · intro hnd l j hj hlen
    rw [buildRowPure_alookup_at l cols 0 [] hnd j hj, if_neg (by omega)]

theorem convert_rows_shape_witness :
    convertVisualization (Json.obj [("total", .num 5)]) (mkColDoc ["a", "b"] [[.num 1]])
      = .ok (specLegacyShape (rowObjs ["a", "b"] [[.num 1]]) (.num 5))
    ∧ (rowObjs ["a", "b"] [[.num 1]]).length = 1
    ∧ (alookup "b" (buildRowPure [.num 1] 0 ["a", "b"] [])).isSome
    ∧ alookup (["a", "b"].get ⟨1, by decide⟩) (buildRowPure [.num 1] 0 ["a", "b"] [])
        = some .null := by
  obtain ⟨h1, h2, h3, h4⟩ := convert_rows_shape ["a", "b"] [[.num 1]] 5
  exact ⟨h1, h2, h3 [.num 1] "b" (by decide), h4 (by decide) [.num 1] 1 (by decide) (by decide)⟩

/-- C4: a page whose sveltekit candidate carries the visualization
document for given logical data and a legacy page carrying the same data
extract to the identical value: the converted dict is exactly the
fallback-native nested shape, the fallback returns its parsed payload
unchanged, and the row and total readers used downstream agree on both. -/
theorem format_equivalence (jl jl2 : String → Option Json) (m bs : String)
    (cols : List String) (rows : List (List Json)) (t : Json)
    (lines : List String) (line : String)
    (hm : jl m = some (.obj [("body", .str bs)]))
    (hb : jl bs = some (mkBodyJson cols rows t)) :
    getDataDict jl [m] lines = .ok (specLegacyShape (rowObjs cols rows) t)
    ∧ ((lines.filter fun r => pyStartsWith r mainMarker) = [line] →
        jl2 ((line.dropRight 1).drop mainMarker.length)
          = some (specLegacyShape (rowObjs cols rows) t) →
        getDataDict jl2 [] lines = .ok (specLegacyShape (rowObjs cols rows) t))
    ∧ (∀ R T, pageRowsVal (specLegacyShape R T) = .ok (.arr R)
        ∧ pageTotalVal (specLegacyShape R T) = .ok T) := by
  have hconv : convertVisualization (mkResultJson cols rows t) (mkColDoc cols rows)
      = .ok (specLegacyShape (rowObjs cols rows) t) :=
    convertVisualization_mk _ cols rows t rfl
  have hdm : docMatches (mkColDoc cols rows) = .ok true := rfl
  have hdocs : loopDocs (mkResultJson cols rows t) [mkColDoc cols rows]
      = .ok (some (specLegacyShape (rowObjs cols rows) t)) := by
    simp [loopDocs, hdm, okBind, hconv, pureE]
  have hc1 : pyContains (mkResultJson cols rows t) "documents" = .ok true := rfl
  have hx1 : pyIndex (mkResultJson cols rows t) "documents"
      = .ok (.arr [mkColDoc cols rows]) := rfl
  have hlr : loopResults [mkResultJson cols rows t]
      = .ok (some (specLegacyShape (rowObjs cols rows) t)) := by
    simp [loopResults, hc1, hx1, okBind, pyIter, hdocs, pureE]
  have h1 : pyContains (Json.obj [("body", .str bs)]) "body" = .ok true := rfl
  have h2 : pyIndex (Json.obj [("body", .str bs)]) "body" = .ok (.str bs) := rfl
  have h3 : pyContains (mkBodyJson cols rows t) "finance" = .ok true := rfl
  have h4 : pyIndex (mkBodyJson cols rows t) "finance"
      = .ok (.obj [("result", .arr [mkResultJson cols rows t])]) := rfl
  have h5 : pyContains (.obj [("result", .arr [mkResultJson cols rows t])]) "result"
      = .ok true := rfl
  have h6 : pyIndex (.obj [("result", .arr [mkResultJson cols rows t])]) "result"
      = .ok (.arr [mkResultJson cols rows t]) := rfl
  have htm : tryMatch jl m = .ok (some (specLegacyShape (rowObjs cols rows) t)) := by
    simp [tryMatch, hm, hb, h1, h2, h3, h4, h5, h6, okBind, pyIter, hlr]
  refine ⟨?_, ?_, ?_⟩
  · simp [getDataDict, extractSvelte, extractGo, htm]
  · intro hfil hjl2
    simp [getDataDict, extractSvelte, extractGo, fallbackExtract, hfil, hjl2]
  · intro R T
    exact ⟨rfl, rfl⟩

theorem format_equivalence_witness :
    getDataDict (fun s => if s = "mm" then some (.obj [("body", .str "bb")])
        else if s = "bb" then some (mkBodyJson ["a"] [[.num 3]] (.num 1)) else none)
      ["mm"] ["root.App.main = X;"]
      = .ok (specLegacyShape (rowObjs ["a"] [[.num 3]]) (.num 1))
    ∧ getDataDict
        (fun s => if s = "X" then some (specLegacyShape (rowObjs ["a"] [[.num 3]]) (.num 1))
          else none)
        [] ["root.App.main = X;"]
      = .ok (specLegacyShape (rowObjs ["a"] [[.num 3]]) (.num 1))
    ∧ pageRowsVal (specLegacyShape [] .null) = .ok (.arr [])
    ∧ pageTotalVal (specLegacyShape [] .null) = .ok .null := by
  obtain ⟨h1, h2, h3⟩ := format_equivalence
    (fun s => if s = "mm" then some (.obj [("body", .str "bb")])
      else if s = "bb" then some (mkBodyJson ["a"] [[.num 3]] (.num 1)) else none)
    (fun s => if s = "X" then some (specLegacyShape (rowObjs ["a"] [[.num 3]]) (.num 1))
      else none)
    "mm" "bb" ["a"] [[.num 3]] (.num 1) ["root.App.main = X;"] "root.App.main = X;" rfl rfl
  exact ⟨h1, h2 rfl rfl, (h3 [] .null).1, (h3 [] .null).2⟩

theorem insertLe_perm (le : α → α → Bool) (a : α) (l : List α) :
    (insertLe le a l).Perm (a :: l) := by
  induction l with
  | nil => exact List.Perm.refl _
  | cons b rest ih =>
    by_cases h : le a b
    · rw [insertLe, if_pos h]
    · rw [insertLe, if_neg h]
      exact (List.Perm.cons b ih).trans (List.Perm.swap a b rest)

theorem sortBy_perm (le : α → α → Bool) (l : List α) : (sortBy le l).Perm l := by
  induction l with
  | nil => exact List.Perm.refl _
  | cons a rest ih =>
    rw [sortBy]
    exact (insertLe_perm le a (sortBy le rest)).trans (List.Perm.cons a ih)

theorem insertLe_sorted (le : α → α → Bool)
    (htrans : ∀ a b c, le a b = true → le b c = true → le a c = true)
    (htotal : ∀ a b, le a b = true ∨ le b a = true) (a : α) (l : List α)
    (hs : l.Pairwise (fun x y => le x y = true)) :
    (insertLe le a l).Pairwise (fun x y => le x y = true) := by
  induction l with
  | nil => simp [insertLe]
  | cons b rest ih =>
    rcases List.pairwise_cons.1 hs with ⟨hb, hrest⟩
    by_cases h : le a b
    · rw [insertLe, if_pos h]
      refine List.pairwise_cons.2 ⟨?_, hs⟩
      intro x hx
      rcases List.mem_cons.1 hx with rfl | hx
      · exact h
      · exact htrans a b x h (hb x hx)
    · rw [insertLe, if_neg h]
      have hba : le b a = true := (htotal a b).resolve_left h
      refine List.pairwise_cons.2 ⟨?_, ih hrest⟩
      intro x hx
      have hx' : x ∈ a :: rest := (insertLe_perm le a rest).mem_iff.1 hx
      rcases List.mem_cons.1 hx' with rfl | hx'
      · exact hba
      · exact hb x hx'

theorem sortBy_sorted (le : α → α → Bool)
    (htrans : ∀ a b c, le a b = true → le b c = true → le a c = true)
    (htotal : ∀ a b, le a b = true ∨ le b a = true) (l : List α) :
    (sortBy le l).Pairwise (fun x y => le x y = true) := by
  induction l with
  | nil => simp [sortBy]
  | cons a rest ih =>
    rw [sortBy]
    exact insertLe_sorted le htrans htotal a (sortBy le rest) ih

theorem lexLe_total : ∀ xs ys : List Char, lexLe xs ys = true ∨ lexLe ys xs = true := by
  intro xs
  induction xs with
  | nil => intro ys; left; rfl
  | cons a as ih =>
    intro ys
    cases ys with
    | nil => right; rfl
    | cons b bs =>
      by_cases h1 : a.toNat < b.toNat
      · left; simp [lexLe, h1]
      · by_cases h2 : b.toNat < a.toNat
        · right; simp [lexLe, h2]
        · rcases ih bs with h | h
          · left; simp [lexLe, h1, h2, h]
          · right; simp [lexLe, h1, h2, h]

theorem lexLe_trans : ∀ xs ys zs : List Char,
    lexLe xs ys = true → lexLe ys zs = true → lexLe xs zs = true := by
  intro xs
  induction xs with
  | nil => intro ys zs _ _; rfl
  | cons a as ih =>
    intro ys zs h1 h2
    cases ys with
    | nil => simp [lexLe] at h1
    | cons b bs =>
      cases zs with
      | nil => simp [lexLe] at h2
      | cons c cs =>
        by_cases hab : a.toNat < b.toNat
        · by_cases hbc : b.toNat < c.toNat
          · simp [lexLe, show a.toNat < c.toNat by omega]
          · by_cases hcb : c.toNat < b.toNat
            · simp [lexLe, hbc, hcb] at h2
            · simp [lexLe, show a.toNat < c.toNat by omega]
        · by_cases hba : b.toNat < a.toNat
          · simp [lexLe, hab, hba] at h1
          · have h1' : lexLe as bs = true := by simpa [lexLe, hab, hba] using h1
            by_cases hbc : b.toNat < c.toNat
            · simp [lexLe, show a.toNat < c.toNat by omega]
            · by_cases hcb : c.toNat < b.toNat
              · simp [lexLe, hbc, hcb] at h2
              · have h2' : lexLe bs cs = true := by simpa [lexLe, hbc, hcb] using h2
                have hac1 : ¬ a.toNat < c.toNat := by omega
                have hac2 : ¬ c.toNat < a.toNat := by omega
                simp [lexLe, hac1, hac2, ih bs cs h1' h2']

theorem strLe_trans (s1 s2 s3 : String) (h1 : strLe s1 s2 = true) (h2 : strLe s2 s3 = true) :
    strLe s1 s3 = true :=
  lexLe_trans s1.data s2.data s3.data h1 h2

theorem strLe_total (s1 s2 : String) : strLe s1 s2 = true ∨ strLe s2 s1 = true :=
  lexLe_total s1.data s2.data

theorem scanNext_cons (strp : String → Option Int) (now : Int) (s : String) (r : Json)
    (rest : List (String × Json)) :
    scanNext strp now ((s, r) :: rest)
      = match parsePipe strp s with
        | some t => if now ≤ t then .ok (.ts t) else scanNext strp now rest
        | none => scanNext strp now rest := by
  by_cases h1 : s = ""
  · subst h1; simp [scanNext, parsePipe]
  · by_cases h2 : 'T' ∈ s.data
    · simp [scanNext, parsePipe, h1, h2]
    · simp [scanNext, parsePipe, h1, h2]

theorem scanNext_none (strp : String → Option Int) (now : Int) :
    ∀ L : List (String × Json),
      (∀ p ∈ L, ¬ ∃ t, parsePipe strp p.1 = some t ∧ now ≤ t) →
      scanNext strp now L = .error .noUpcoming := by
  intro L
  induction L with
  | nil => intro _; rfl
  | cons q rest ih =>
    intro hall
    obtain ⟨s, r⟩ := q
    rw [scanNext_cons]
    rcases hp : parsePipe strp s with _ | t
    · exact ih (fun p hm => hall p (List.mem_cons_of_mem _ hm))
    · have hnq := hall (s, r) (List.mem_cons_self _ _)
      have hnot : ¬ now ≤ t := fun hle => hnq ⟨t, hp, hle⟩
      show (if now ≤ t then Except.ok (NextRes.ts t) else scanNext strp now rest)
        = Except.error PyExc.noUpcoming
      rw [if_neg hnot]
      exact ih (fun p hm => hall p (List.mem_cons_of_mem _ hm))

theorem scanNext_found (strp : String → Option Int) (now : Int)
    (hmono : ∀ s1 s2 t1 t2, strLe s1 s2 = true → parsePipe strp s1 = some t1 →
      parsePipe strp s2 = some t2 → t1 ≤ t2) :
    ∀ L : List (String × Json), L.Pairwise (fun x y => strLe x.1 y.1 = true) →
      ∀ p0 ∈ L, ∀ t0', parsePipe strp p0.1 = some t0' → now ≤ t0' →
      ∃ t0, scanNext strp now L = .ok (.ts t0) ∧ now ≤ t0
        ∧ (∃ p ∈ L, parsePipe strp p.1 = some t0)
        ∧ ∀ p ∈ L, ∀ t, parsePipe strp p.1 = some t → now ≤ t → t0 ≤ t := by
  intro L
  induction L with
  | nil => intro _ p0 h; exact absurd h (by simp)
  | cons q rest ih =>
    intro hs p0 hp0 t0' hpt0 hnle
    obtain ⟨hq, hrest⟩ := List.pairwise_cons.1 hs
    obtain ⟨s, r⟩ := q
    rcases hp : parsePipe strp s with _ | t
    · have hp0' : p0 ∈ rest := by
        rcases List.mem_cons.1 hp0 with rfl | h
        · rw [hp] at hpt0; exact absurd hpt0 (by simp)
        · exact h
      obtain ⟨t0, hscan, hn, hex, hmin⟩ := ih hrest p0 hp0' t0' hpt0 hnle
      refine ⟨t0, ?_, hn, ?_, ?_⟩
      · rw [scanNext_cons, hp]; exact hscan
      · obtain ⟨p, hpmem, hpp⟩ := hex
        exact ⟨p, List.mem_cons_of_mem _ hpmem, hpp⟩
      · intro p hpmem t ht hnt
        rcases List.mem_cons.1 hpmem with rfl | hpmem'
        · rw [hp] at ht; exact absurd ht (by simp)
        · exact hmin p hpmem' t ht hnt
    · by_cases hn : now ≤ t
      · refine ⟨t, ?_, hn, ⟨(s, r), List.mem_cons_self _ _, hp⟩, ?_⟩
        · rw [scanNext_cons, hp]
          show (if now ≤ t then Except.ok (NextRes.ts t) else scanNext strp now rest)
            = Except.ok (NextRes.ts t)
          rw [if_pos hn]
        · intro p hpmem t' ht' hnt'
          rcases List.mem_cons.1 hpmem with rfl | hpmem'
          · rw [hp] at ht'
            have : t = t' := by injection ht'
            omega
          · exact hmono s p.1 t t' (hq p hpmem') hp ht'
      · have hp0' : p0 ∈ rest := by
          rcases List.mem_cons.1 hp0 with rfl | h
          · rw [hp] at hpt0
            have : t = t0' := by injection hpt0
            exact absurd (this ▸ hnle) hn
          · exact h
        obtain ⟨t0, hscan, hn0, hex, hmin⟩ := ih hrest p0 hp0' t0' hpt0 hnle
        refine ⟨t0, ?_, hn0, ?_, ?_⟩
        · rw [scanNext_cons, hp]
          show (if now ≤ t then Except.ok (NextRes.ts t) else scanNext strp now rest)
            = Except.ok (NextRes.ts t0)
          rw [if_neg hn]
          exact hscan
        · obtain ⟨p, hpmem, hpp⟩ := hex
          exact ⟨p, List.mem_cons_of_mem _ hpmem, hpp⟩
        · intro p hpmem t' ht' hnt'
          rcases List.mem_cons.1 hpmem with rfl | hpmem'
          · rw [hp] at ht'
            have : t = t' := by injection ht'
            exact absurd (this ▸ hnt') hn
          · exact hmin p hpmem' t' ht' hnt'

/-- C2 counterexample: with the legacy path absent and an empty record
list, get_next_earnings_date returns None rather than raising; the claim
that it fails with NoUpcomingEarnings whenever no future-dated record
exists (including the absent case) is false. -/
theorem next_earnings_empty_counterexample :
    getNextEarningsDate (.ok (.obj [])) (.ok (specLegacyShape [] (.num 0))) (fun _ => none) 0
      = .ok .nothing
    ∧ ∀ e : PyExc,
        getNextEarningsDate (.ok (.obj [])) (.ok (specLegacyShape [] (.num 0))) (fun _ => none) 0
          ≠ .error e := by
  refine ⟨rfl, ?_⟩
  intro e h
  rw [show getNextEarningsDate (.ok (.obj [])) (.ok (specLegacyShape [] (.num 0)))
      (fun _ => none) 0 = .ok .nothing from rfl] at h
  simp at h

/-- C2 amended: when the legacy lookup falls through and the extracted
record list is nonempty, get_next_earnings_date returns the timestamp of
the earliest entry whose start parses and lies at or after now, skipping
past-dated and malformed entries, and fails with the collapsed error when
the nonempty list holds no such entry; an empty record list instead
returns None (see the counterexample). -/
theorem next_earnings_scan_amended (quotePage calPage : Except PyExc Json)
    (strp : String → Option Int) (now : Int) (page : Json) (e : PyExc) (l : List Json)
    (pairs : List (String × Json))
    (hq : quotePage = .ok page)
    (hleg : legacyAttempt page = .error e)
    (he : e = .keyError ∨ e = .typeError ∨ e = .indexError)
    (hE : getEarningsOf calPage = .ok (.arr l))
    (hne : l ≠ [])
    (hk : mapE (fun r => do let k ← startKey r; pure (k, r)) l = .ok pairs)
    (hmono : ∀ s1 s2 t1 t2, strLe s1 s2 = true → parsePipe strp s1 = some t1 →
      parsePipe strp s2 = some t2 → t1 ≤ t2) :
    ((∃ p ∈ pairs, ∃ t, parsePipe strp p.1 = some t ∧ now ≤ t) →
      ∃ t0, getNextEarningsDate quotePage calPage strp now = .ok (.ts t0) ∧ now ≤ t0
        ∧ (∃ p ∈ pairs, parsePipe strp p.1 = some t0)
        ∧ ∀ p ∈ pairs, ∀ t, parsePipe strp p.1 = some t → now ≤ t → t0 ≤ t)
    ∧ ((∀ p ∈ pairs, ¬ ∃ t, parsePipe strp p.1 = some t ∧ now ≤ t) →
      getNextEarningsDate quotePage calPage strp now = .error .collapsed) := by
  have hemp : l.isEmpty = false := by
    cases l with
    | nil => exact absurd rfl hne
    | cons a as => rfl
  have hlen : 0 < l.length := by
    cases l with
    | nil => exact absurd rfl hne
    | cons a as => simp
  have hk' : mapE (fun r => do let k ← startKey r; Except.ok (k, r)) l = .ok pairs := by
    simpa only [pureE] using hk
  have hInner : getNextInner quotePage calPage strp now
      = scanNext strp now (sortBy (fun a b => strLe a.1 b.1) pairs) := by
    rcases he with rfl | rfl | rfl <;>
      simp [getNextInner, hq, hleg, okBind, hE, pyTruthy, hemp, pyLen, hlen, pyIter, hk', pureE]
  have hperm := sortBy_perm (fun a b : String × Json => strLe a.1 b.1) pairs
  have hsorted := sortBy_sorted (fun a b : String × Json => strLe a.1 b.1)
    (fun a b c => strLe_trans a.1 b.1 c.1) (fun a b => strLe_total a.1 b.1) pairs
  constructor
  · rintro ⟨p0, hp0, t0', hpt, hnt⟩
    obtain ⟨t0, hscan, hn, hex, hmin⟩ := scanNext_found strp now hmono
      (sortBy (fun a b => strLe a.1 b.1) pairs) hsorted p0 (hperm.mem_iff.2 hp0) t0' hpt hnt
    refine ⟨t0, ?_, hn, ?_, ?_⟩
    · rw [getNextEarningsDate, hInner, hscan]
    · obtain ⟨p, hpmem, hpp⟩ := hex
      exact ⟨p, hperm.mem_iff.1 hpmem, hpp⟩
    · intro p hpmem t ht hnt'
      exact hmin p (hperm.mem_iff.2 hpmem) t ht hnt'
  · intro hall
    have hnone : scanNext strp now (sortBy (fun a b => strLe a.1 b.1) pairs)
        = .error .noUpcoming :=
      scanNext_none strp now _ (fun p hm => hall p (hperm.mem_iff.1 hm))
    rw [getNextEarningsDate, hInner, hnone]

theorem next_earnings_scan_amended_witness :
    (∃ p ∈ [(("2100-01-01T00:00:00" : String),
        Json.obj [("startdatetime", .str "2100-01-01T00:00:00")])], ∃ t : Int,
      parsePipe (fun s => if s = "2100-01-01T00:00:00" then some 100 else none) p.1 = some t
        ∧ (0 : Int) ≤ t)
    ∧ ∃ t0 : Int,
        getNextEarningsDate (.ok (.obj []))
          (.ok (specLegacyShape [Json.obj [("startdatetime", .str "2100-01-01T00:00:00")]]
            (.num 1)))
          (fun s => if s = "2100-01-01T00:00:00" then some 100 else none) 0
          = .ok (.ts t0)
        ∧ (0 : Int) ≤ t0 := by
  have hmono : ∀ s1 s2 t1 t2,
      strLe s1 s2 = true →
      parsePipe (fun s => if s = "2100-01-01T00:00:00" then some 100 else none) s1 = some t1 →
      parsePipe (fun s => if s = "2100-01-01T00:00:00" then some 100 else none) s2 = some t2 →
      t1 ≤ t2 := by
    have hval : ∀ s t, parsePipe (fun s => if s = "2100-01-01T00:00:00" then some 100 else none) s
        = some t → t = 100 := by
      intro s t h
      unfold parsePipe at h
      split at h
      · change (if dtCut s = "2100-01-01T00:00:00" then some (100 : Int) else none) = some t at h
        by_cases hd : dtCut s = "2100-01-01T00:00:00"
        · rw [if_pos hd] at h
          injection h with h
          omega
        · rw [if_neg hd] at h
          exact absurd h (by simp)
      · exact absurd h (by simp)
    intro s1 s2 t1 t2 _ h1 h2
    rw [hval s1 t1 h1, hval s2 t2 h2]
  have hex : ∃ p ∈ [(("2100-01-01T00:00:00" : String),
      Json.obj [("startdatetime", .str "2100-01-01T00:00:00")])], ∃ t : Int,
    parsePipe (fun s => if s = "2100-01-01T00:00:00" then some 100 else none) p.1 = some t
      ∧ (0 : Int) ≤ t := by
    refine ⟨_, List.mem_cons_self _ _, 100, ?_, by omega⟩
    rfl
  refine ⟨hex, ?_⟩
  obtain ⟨t0, hres, hn, _, _⟩ := (next_earnings_scan_amended (.ok (.obj []))
    (.ok (specLegacyShape [Json.obj [("startdatetime", .str "2100-01-01T00:00:00")]] (.num 1)))
    (fun s => if s = "2100-01-01T00:00:00" then some 100 else none) 0 (.obj []) .keyError
    [Json.obj [("startdatetime", .str "2100-01-01T00:00:00")]]
    [(("2100-01-01T00:00:00" : String), Json.obj [("startdatetime", .str "2100-01-01T00:00:00")])]
    rfl rfl (Or.inl rfl) rfl (by simp) rfl hmono).1 hex
  exact ⟨t0, hres, hn⟩

/-- C10: when the legacy quote-summary lookup falls through and
get_earnings_of yields an empty record list, get_next_earnings_date
returns None: the scan and the raise are guarded by the non-emptiness
test, and the empty path falls off the end of the function. -/
theorem next_earnings_empty_returns_none (quotePage calPage : Except PyExc Json)
    (strp : String → Option Int) (now : Int) (page : Json) (e : PyExc)
    (hq : quotePage = .ok page) (hleg : legacyAttempt page = .error e)
    (he : e = .keyError ∨ e = .typeError ∨ e = .indexError)
    (hE : getEarningsOf calPage = .ok (.arr [])) :
    getNextEarningsDate quotePage calPage strp now = .ok .nothing := by
  rcases he with rfl | rfl | rfl <;>
    simp [getNextEarningsDate, getNextInner, hq, hleg, okBind, hE, pyTruthy, pureE]

theorem next_earnings_empty_returns_none_witness :
    getNextEarningsDate (.ok (.obj [("context", .num 3)])) (.ok (specLegacyShape [] (.num 7)))
      (fun _ => some 0) 5 = .ok .nothing :=
  next_earnings_empty_returns_none (.ok (.obj [("context", .num 3)]))
    (.ok (specLegacyShape [] (.num 7))) (fun _ => some 0) 5 (.obj [("context", .num 3)])
    .typeError rfl rfl (Or.inr (Or.inl rfl)) rfl
